import Mathlib

/-!
Verification of the CSV/TSV parsing and validation engine of RustyCsvViewer.

The definitions below are a shallow embedding of the Rust source:
  * `src/rusty_csv_viewer/src/table/data.rs`   (the `TableData` container and
    the error taxonomy together with its `Display` implementation), and
  * `src/rusty_csv_viewer/src/table/reader.rs` (the row scanner
    `parse_values` and the field helpers `validate_field`, `finalize_field`,
    `has_outer_quotes`), and
  * `src/src/csv/reader.rs` (the older streaming `validate_field`, embedded
    here as `validate_field_old`).

Modelling conventions:
  * Rust `String` / `&str` values are modelled as `List Char` (Unicode scalar
    values); UTF-8 byte lengths, which the source mixes with character
    positions, are computed by `utf8Len` from `Char.utf8Size`.
  * The `i32`/`usize` row, column and count fields are modelled as `Nat`;
    every value produced by the scanner is a count of already-processed
    items, so it is non-negative, and the `as i32` cast in the source is
    lossless for any input small enough to exist in memory.
  * Rust functions that can panic (`TableData::set_header`,
    `TableData::set_data`, the byte slicings `&field[1..field.len()-1]` and
    `&value[0..max_value_len]`) are modelled with `Option`, `none` standing
    for a panic; `parse_values` consequently returns
    `Option (Except TableDataValidationError TableData)`, with `none`
    standing for a panicking execution.
-/

/-- Equality of `Except` results is decidable componentwise; used to settle
concrete scenarios by evaluation. -/
instance {ε α : Type} [DecidableEq ε] [DecidableEq α] :
    DecidableEq (Except ε α) := fun x y =>
  match x, y with
  | .ok a, .ok b =>
    if h : a = b then isTrue (by rw [h])
    else isFalse (by intro hc; cases hc; exact h rfl)
  | .error a, .error b =>
    if h : a = b then isTrue (by rw [h])
    else isFalse (by intro hc; cases hc; exact h rfl)
  | .ok _, .error _ => isFalse (by intro hc; cases hc)
  | .error _, .ok _ => isFalse (by intro hc; cases hc)

/-- One of the three quote-error subtypes of
`data.rs`' `enum QuoteValidationError`. -/
inductive QuoteValidationError where
  | InvalidEscapeError : QuoteValidationError
  | InvalidQuoteError : QuoteValidationError
  | UnterminatedQuoteError : QuoteValidationError
deriving DecidableEq, Repr

/-- `data.rs`' `enum TableDataValidationError`: either a quote error carrying
the offending raw field, or a row-shape error. -/
inductive TableDataValidationError where
  | QuoteValidationError (subtype : QuoteValidationError) (row : Nat)
      (col : Nat) (value : List Char) : TableDataValidationError
  | RowFieldCountMismatchError (row : Nat) (expected : Nat)
      (found : Nat) : TableDataValidationError
deriving DecidableEq, Repr

/-- `data.rs`' `struct TableData`: header fields, row-major flat data, and
the `(columns, rows)` dimension pair. -/
structure TableData where
  header : List (List Char)
  data : List (List Char)
  dims : Nat × Nat
deriving DecidableEq, Repr

/-- `TableData::new()`. -/
def TableData.new : TableData := ⟨[], [], (0, 0)⟩

/-- `TableData::columns()`. -/
def TableData.columns (t : TableData) : Nat := t.dims.1

/-- `TableData::rows()`. -/
def TableData.rows (t : TableData) : Nat := t.dims.2

/-- `TableData::has_headers()`. -/
def TableData.has_headers (t : TableData) : Bool := 0 < t.header.length

/-- `TableData::set_header`: replaces the header and updates the dimensions;
the source panics (here: `none`) when a non-zero column count is already
established and the new header's length disagrees with it.  Rust's
`Vec::append` drains its argument, so the header becomes exactly `h`. -/
def TableData.set_header (t : TableData) (h : List (List Char)) :
    Option TableData :=
  if (0 < t.columns ∧ h.length = t.columns) ∨ t.columns = 0 then
    some { t with header := h, dims := (h.length, t.rows) }
  else
    none

/-- `TableData::set_data`: appends a row's fields to the flat data and
recomputes the dimensions as `(cols, data.len() / cols)`.  The source panics
(here: `none`) when a non-zero column count is already established and
`cols` disagrees with it; it also divides by `cols`, so a call with
`cols = 0` that passes the guard panics with a division by zero, which the
model also maps to `none`. -/
def TableData.set_data (t : TableData) (d : List (List Char)) (cols : Nat) :
    Option TableData :=
  if (0 < t.columns ∧ cols = t.columns) ∨ t.columns = 0 then
    if cols = 0 then
      none
    else
      some { t with data := t.data ++ d,
                    dims := (cols, (t.data ++ d).length / cols) }
  else
    none

/-- UTF-8 byte length of a field, the value Rust's `str::len()` returns. -/
def utf8Len (f : List Char) : Nat := (f.map Char.utf8Size).sum

/-- `reader.rs`' `has_outer_quotes`: the field starts and ends with `"`. -/
def has_outer_quotes (f : List Char) : Bool :=
  f.head? = some '\"' ∧ f.getLast? = some '\"'

/-- The quote-position list built by `validate_field` in
`rusty_csv_viewer`'s `reader.rs`: character positions (from
`chars().enumerate()`) of each `"` with `0 < i` and `i < field.len() - 1`,
where `field.len()` is the UTF-8 *byte* length. -/
def interiorQuoteIndices (f : List Char) : List Nat :=
  ((f.enum.filter
      (fun p => decide (p.2 = '\"' ∧ 0 < p.1 ∧ p.1 < utf8Len f - 1))).map
    Prod.fst)

/-- The `for v in indices.chunks(2)` loop of `validate_field`: consecutive
pairs are checked for adjacency, and an adjacent (doubled) pair is an
invalid escape unless the field has outer quotes.  The singleton case is
unreachable in the source (the odd-count check precedes the loop; on an odd
list `v[1]` would panic) and is mapped to the vacuous `ok`. -/
def checkQuotePairs (hasOuter : Bool) : List Nat →
    Except QuoteValidationError Bool
  | [] => .ok true
  | [_] => .ok true
  | a :: b :: rest =>
    if b - a > 1 then .error .InvalidQuoteError
    else if ¬ hasOuter then .error .InvalidEscapeError
    else checkQuotePairs hasOuter rest

/-- `reader.rs`' `validate_field` (the newest engine, index-collecting
version). -/
def validate_field (f : List Char) : Except QuoteValidationError Bool :=
  let hasOuter := has_outer_quotes f
  let indices := interiorQuoteIndices f
  if indices.length % 2 > 0 then .error .InvalidQuoteError
  else checkQuotePairs hasOuter indices

/-- Rust's `str::replace("\x22\x22", "\x22")`: non-overlapping left-to-right
replacement of each doubled quote by a single quote. -/
def collapseDoubledQuotes : List Char → List Char
  | [] => []
  | [c] => [c]
  | c1 :: c2 :: rest =>
    if c1 = '\"' ∧ c2 = '\"' then '\"' :: collapseDoubledQuotes rest
    else c1 :: collapseDoubledQuotes (c2 :: rest)

/-- `reader.rs`' `finalize_field`: strips the outer quote pair by the byte
slice `&field[1..field.len()-1]` and collapses doubled quotes.  When the
field is the single character `"`, `has_outer_quotes` holds but the slice
is `[1..0]`, which panics in Rust; the model returns `none` there.  In every
other outer-quoted case the first and last characters are the two one-byte
quote characters, so the byte slice is exactly `drop 1` + `dropLast`. -/
def finalize_field (f : List Char) : Option (List Char) :=
  if has_outer_quotes f then
    if 2 ≤ f.length then some (collapseDoubledQuotes ((f.drop 1).dropLast))
    else none
  else some (collapseDoubledQuotes f)

/-- The mutable loop state of `parse_values` in `reader.rs`: the accumulated
table, the current row's normalized fields `v`, the quote toggle, the
in-progress raw field, the current and previous row field counts, the
accepted data-row count, and the previously seen character. -/
structure ScanState where
  csv : TableData
  v : List (List Char)
  inside_quote : Bool
  current_field : List Char
  num_fields : Nat
  prev_num_fields : Nat
  row_count : Nat
  prev_char : Char
deriving DecidableEq, Repr

/-- Outcome of one iteration of the scanner loop: a Rust panic, an early
`return Err(..)`, or the next loop state. -/
inductive StepResult where
  | panic : StepResult
  | error (e : TableDataValidationError) : StepResult
  | next (s : ScanState) : StepResult
deriving DecidableEq, Repr

/-- Writes the loop-bottom `prev_char = c;` assignment into a surviving
state. -/
def StepResult.setPrev (c : Char) : StepResult → StepResult
  | .next s => .next { s with prev_char := c }
  | r => r

/-- The field-processing block of `parse_values` (`reader.rs` lines 52-62):
when the (already updated) quote toggle is off and the character closes a
field, validate the raw field, then normalize it and push it onto the
current row.  `next` here means "fall through to the row block". -/
def processField (delim : Char) (c : Char) (s : ScanState) : StepResult :=
  if (c = '\n' ∧ 0 < s.current_field.length) ∨ c = delim then
    match validate_field s.current_field with
    | .error e =>
        .error (.QuoteValidationError e (s.row_count + 1) (s.v.length + 1)
          s.current_field)
    | .ok _ =>
        match finalize_field s.current_field with
        | none => .panic
        | some f =>
            .next { s with v := s.v ++ [f], current_field := [],
                           num_fields := s.num_fields + 1 }
  else .next s

/-- The row-processing block of `parse_values` (`reader.rs` lines 64-81):
at a newline with a non-empty row buffer, compare the rolling field counts,
then hand the row to `set_header` (first row when a header was requested)
or `set_data`.  Both `set_*` calls drain `v` in the source. -/
def processRow (header : Bool) (c : Char) (s : ScanState) : StepResult :=
  if c = '\n' ∧ 0 < s.v.length then
    if 0 < s.prev_num_fields ∧ s.num_fields ≠ s.prev_num_fields then
      .error (.RowFieldCountMismatchError (s.row_count + 1)
        s.prev_num_fields s.num_fields)
    else
      if header = true ∧ s.csv.has_headers = false then
        match s.csv.set_header s.v with
        | none => .panic
        | some t =>
            .next { s with csv := t, v := [], num_fields := 0,
                           prev_num_fields := s.num_fields }
      else
        match s.csv.set_data s.v s.num_fields with
        | none => .panic
        | some t =>
            .next { s with csv := t, v := [], num_fields := 0,
                           prev_num_fields := s.num_fields,
                           row_count := s.row_count + 1 }
  else .next s

/-- The first two statements of the loop body (`reader.rs` lines 43-48):
push the character into the field buffer unless it is an unquoted
delimiter or any newline (a quoted delimiter is pushed), then toggle the
quote state on `"`. -/
def pushAndToggle (delim : Char) (s : ScanState) (c : Char) : ScanState :=
  { s with
    current_field :=
      if (c ≠ '\n' ∧ c ≠ delim) ∨ (s.inside_quote ∧ c = delim) then
        s.current_field ++ [c]
      else s.current_field,
    inside_quote :=
      if c = '\"' then ! s.inside_quote else s.inside_quote }

/-- One iteration of the `for c in ...` loop of `parse_values`: skip a
newline equal to the previous character, run `pushAndToggle`, and, when
outside quotes afterwards, run the field and row blocks. -/
def scanStep (delim : Char) (header : Bool) (s : ScanState) (c : Char) :
    StepResult :=
  if c = s.prev_char ∧ c = '\n' then .next s
  else if (pushAndToggle delim s c).inside_quote then
    .next { pushAndToggle delim s c with prev_char := c }
  else
    match processField delim c (pushAndToggle delim s c) with
    | .panic => .panic
    | .error e => .error e
    | .next s2 => (processRow header c s2).setPrev c

/-- Runs the scanner loop over a character list, threading early exits. -/
def runScan (delim : Char) (header : Bool) :
    ScanState → List Char → StepResult
  | s, [] => .next s
  | s, c :: cs =>
    match scanStep delim header s c with
    | .panic => .panic
    | .error e => .error e
    | .next s1 => runScan delim header s1 cs

/-- The initial loop state of `parse_values` (`prev_char` starts as the NUL
character). -/
def initState : ScanState :=
  ⟨TableData.new, [], false, [], 0, 0, 0, Char.ofNat 0⟩

/-- `reader.rs`' `parse_values`: drop every carriage return, append exactly
one synthetic newline, run the scanner, and report a trailing unterminated
quote.  `none` stands for a panicking execution. -/
def parse_values (buffer : List Char) (delim : Char) (header : Bool) :
    Option (Except TableDataValidationError TableData) :=
  match runScan delim header initState
      ((buffer.filter (fun c => c ≠ '\r')) ++ ['\n']) with
  | .panic => none
  | .error e => some (.error e)
  | .next s =>
    if s.inside_quote then
      some (.error (.QuoteValidationError .UnterminatedQuoteError
        (s.row_count + 1) (s.v.length + 1) s.current_field))
    else some (.ok s.csv)

/-- The reference validator of spec §4.2, written from the spec's words for
comparison with the source's `validate_field`: identical except that the
interior window is bounded by the *character* count (`p.1 < f.length - 1`)
instead of the UTF-8 byte length the source uses. -/
def specInteriorQuoteIndices (f : List Char) : List Nat :=
  ((f.enum.filter
      (fun p => decide (p.2 = '\"' ∧ 0 < p.1 ∧ p.1 < f.length - 1))).map
    Prod.fst)

/-- The §4.2 reference validation, built on `specInteriorQuoteIndices`. -/
def validateFieldSpec (f : List Char) : Except QuoteValidationError Bool :=
  let hasOuter := has_outer_quotes f
  let indices := specInteriorQuoteIndices f
  if indices.length % 2 > 0 then .error .InvalidQuoteError
  else checkQuotePairs hasOuter indices

/-- The per-character body of the `for c in field.chars()` loop of the older
engine's `validate_field` (`src/src/csv/reader.rs` lines 217-251), written
as a recursion over the enumerated characters.  `found` is
`found_escaped_quote` (the byte length `L` is the "no pending quote"
sentinel) and early `return Err(..)` is the `error` result. -/
def oldValidateLoop (L : Nat) (O : Bool) :
    Nat → List (Nat × Char) → Except QuoteValidationError Nat
  | found, [] => .ok found
  | found, p :: rest =>
    if 0 < p.1 ∧ p.1 < L - 1 ∧ p.2 = '\"' then
      if found < L ∧ found ≠ p.1 - 1 then .error .InvalidQuoteError
      else if found = L then oldValidateLoop L O p.1 rest
      else if O = false then .error .InvalidEscapeError
      else oldValidateLoop L O L rest
    else oldValidateLoop L O found rest

/-- The older engine's `validate_field` (`src/src/csv/reader.rs`): a single
streaming pass tracking at most one pending interior quote, followed by the
final odd-count check `found_escaped_quote != field_len`. -/
def validate_field_old (f : List Char) : Except QuoteValidationError Bool :=
  let fieldLen := utf8Len f
  let hasOuter := has_outer_quotes f
  match oldValidateLoop fieldLen hasOuter fieldLen f.enum with
  | .error e => .error e
  | .ok found =>
    if found ≠ fieldLen then .error .InvalidQuoteError else .ok true

/-- The subtype messages of `impl Display for QuoteValidationError` in
`data.rs`. -/
def subtypeMessage : QuoteValidationError → String
  | .InvalidEscapeError => "Unquoted field with escaped quote error"
  | .InvalidQuoteError => "Unbalanced quote error"
  | .UnterminatedQuoteError => "Unterminated outer quote error"

/-- The prefix of a character list occupying exactly `n` UTF-8 bytes, the
value of Rust's byte slice `&value[0..n]`; `none` when `n` is not a
character boundary (where the Rust slice panics) or exceeds the text. -/
def byteTake : List Char → Nat → Option (List Char)
  | _, 0 => some []
  | [], _ + 1 => none
  | c :: cs, n =>
    if c.utf8Size ≤ n then (byteTake cs (n - c.utf8Size)).map (c :: ·)
    else none

/-- `impl Display for TableDataValidationError` in `data.rs` (lines
123-140): quote errors render the offending value truncated by the byte
slice `&value[0..min(64, value.len())]`; `none` stands for the panic when
byte 64 is not a character boundary. -/
def displayError : TableDataValidationError → Option String
  | .QuoteValidationError st row col value =>
    match byteTake value (min 64 (utf8Len value)) with
    | none => none
    | some pre =>
        some ("At row " ++ toString row ++ ". " ++ subtypeMessage st ++
          " in column: " ++ toString col ++ ", value: " ++ String.mk pre)
  | .RowFieldCountMismatchError row expected found =>
    some ("At row " ++ toString row ++ ". Field count mismatch. Expected: "
      ++ toString expected ++ ", Found: " ++ toString found)

/-! Helper lemmas about byte lengths, quote collapsing and truncation. -/

/-- A field whose characters are all single-byte has equal UTF-8 byte
length and character count. -/
theorem utf8Len_eq_length {f : List Char} (h : ∀ c ∈ f, c.utf8Size = 1) :
    utf8Len f = f.length := by
  induction f with
  | nil => rfl
  | cons c cs ih =>
    have h2 := ih fun x hx => h x (List.mem_cons_of_mem _ hx)
    simp only [utf8Len, List.map_cons, List.sum_cons, List.length_cons] at h2 ⊢
    rw [h c (List.mem_cons_self c cs)]
    omega

/-- Collapsing doubled quotes is the identity on quote-free text. -/
theorem collapse_no_quote :
    ∀ (f : List Char), '\"' ∉ f → collapseDoubledQuotes f = f
  | [] => fun _ => rfl
  | [_] => fun _ => rfl
  | c1 :: c2 :: rest => fun h => by
    have h1 : ¬ (c1 = '\"' ∧ c2 = '\"') := by
      rintro ⟨e1, _⟩
      exact h (by simp [e1])
    have hrest : '\"' ∉ c2 :: rest := fun hm => h (List.mem_cons_of_mem _ hm)
    simp only [collapseDoubledQuotes]
    rw [if_neg h1, collapse_no_quote (c2 :: rest) hrest]

/-- On single-byte text a byte-based prefix is a character-based prefix. -/
theorem byteTake_of_ones :
    ∀ (v : List Char) (n : Nat), (∀ c ∈ v, c.utf8Size = 1) →
      n ≤ v.length → byteTake v n = some (v.take n) := by
  intro v
  induction v with
  | nil =>
    intro n _ hn
    have : n = 0 := Nat.le_zero.mp hn
    subst this
    rfl
  | cons c cs ih =>
    intro n hall hn
    cases n with
    | zero => rfl
    | succ m =>
      have hc : c.utf8Size = 1 := hall c (List.mem_cons_self c cs)
      simp only [byteTake, hc]
      rw [if_pos (by omega)]
      have hm : m + 1 - 1 = m := by omega
      rw [hm, ih m (fun x hx => hall x (List.mem_cons_of_mem _ hx)) (by
        simp only [List.length_cons] at hn; omega)]
      rfl

/-! Claims C3, C4, C6, C8. -/

/-- Claim C3: parsing the text a,"b\nc",d with delimiter `,` and
header=false succeeds and yields a table with an empty header and exactly
one data row ["a","bc","d"]; the newline inside the quoted field terminates
no row and is absent from the normalized field value. -/
theorem claim_C3_embedded_newline :
    parse_values ("a,\"b\nc\",d".toList) ',' false =
      some (.ok { header := [], data := ["a".toList, "bc".toList, "d".toList],
                  dims := (3, 1) }) := by
  decide

/-- Claim C4, counterexample: on the two-character field é" the source's
`validate_field` (byte-length interior window) rejects with InvalidQuote
while the §4.2 reference (character-count window) accepts, so the claimed
agreement on fields with multi-byte characters is false. -/
theorem claim_C4_counterexample :
    validate_field ['é', '\"'] = .error .InvalidQuoteError ∧
      validateFieldSpec ['é', '\"'] = .ok true := by
  decide

/-- Claim C4 (amended): on every field whose characters are all single-byte
(so that byte positions and character positions coincide), `validate_field`
behaves exactly as the §4.2 reference validator. -/
theorem claim_C4_validate_ascii_agree :
    ∀ (f : List Char), (∀ c ∈ f, c.utf8Size = 1) →
      validate_field f = validateFieldSpec f := by
  intro f h
  unfold validate_field validateFieldSpec
  have he : interiorQuoteIndices f = specInteriorQuoteIndices f := by
    unfold interiorQuoteIndices specInteriorQuoteIndices
    congr 1
    apply List.filter_congr
    intro p _
    rw [decide_eq_decide, utf8Len_eq_length h]
  rw [he]

/-- Claim C4, witness: the amended agreement evaluated on the concrete
all-single-byte field a""b. -/
theorem claim_C4_witness :
    validate_field ("a\"\"b".toList) = validateFieldSpec ("a\"\"b".toList) :=
  claim_C4_validate_ascii_agree _ (by decide)

/-- Claim C6, counterexample: the single-character field " passes
validation, yet `finalize_field` panics on it (the byte slice `[1..0]`),
so the claim that it returns a normalized value for every validated field
is false. -/
theorem claim_C6_counterexample :
    validate_field ['\"'] = .ok true ∧ finalize_field ['\"'] = none := by
  decide

/-- Claim C6 (amended): for every validated field other than the single
character ", `finalize_field` returns the field with the outer quote pair
stripped (when present) and every doubled quote collapsed; in particular
the field "" normalizes to the empty string and a quote-free field is
returned unchanged. -/
theorem claim_C6_finalize :
    (∀ f : List Char, validate_field f = .ok true → f ≠ ['\"'] →
      finalize_field f = some (collapseDoubledQuotes
        (if has_outer_quotes f then (f.drop 1).dropLast else f))) ∧
    finalize_field ['\"', '\"'] = some [] ∧
    (∀ f : List Char, '\"' ∉ f → finalize_field f = some f) := by
  refine ⟨?_, by decide, ?_⟩
  · intro f _ hne
    unfold finalize_field
    by_cases ho : has_outer_quotes f = true
    · rw [if_pos ho, if_pos ho]
      have h2 : 2 ≤ f.length := by
        match f, hne with
        | [], hne => simp [has_outer_quotes] at ho
        | [c], hne =>
          simp only [has_outer_quotes, List.head?_cons, List.getLast?_singleton,
            decide_eq_true_eq] at ho
          have hc := Option.some.inj ho.1
          exact absurd (by rw [hc]) hne
        | c1 :: c2 :: rest, hne => simp
      rw [if_pos h2]
    · rw [if_neg ho, if_neg ho]
  · intro f h
    have ho : ¬ (has_outer_quotes f = true) := by
      intro hov
      simp only [has_outer_quotes, decide_eq_true_eq] at hov
      exact h (List.mem_of_mem_head? (by rw [hov.1]; rfl))
    unfold finalize_field
    rw [if_neg ho, collapse_no_quote f h]

/-- Claim C6, witness: the amended normalization evaluated on the concrete
validated field "a""b". -/
theorem claim_C6_witness :
    finalize_field ("\"a\"\"b\"".toList) = some (collapseDoubledQuotes
      (if has_outer_quotes ("\"a\"\"b\"".toList)
        then (("\"a\"\"b\"".toList).drop 1).dropLast
        else "\"a\"\"b\"".toList)) :=
  claim_C6_finalize.1 _ (by decide) (by decide)

/-- Claim C8, counterexample: a quote error whose value is 33 copies of the
two-byte character é renders with only the first 32 characters (64 bytes),
not the claimed first 64 characters (which would keep all 33). -/
theorem claim_C8_counterexample :
    displayError (.QuoteValidationError .InvalidQuoteError 1 1
        (List.replicate 33 'é')) ≠
      some ("At row 1. Unbalanced quote error in column: 1, value: " ++
        String.mk ((List.replicate 33 'é').take 64)) := by
  decide

/-- Claim C8 (amended): quote errors render as
"At row r. m in column: c, value: v" with the value truncated to its first
min(64, byte length) bytes - equal to the first 64 characters whenever the
value's characters are single-byte (the truncation is byte-based in the
source, and panics when byte 64 splits a multi-byte character); row-shape
errors render as "At row r. Field count mismatch. Expected: e, Found: f";
the three subtype messages are as claimed. -/
theorem claim_C8_display :
    (∀ (st : QuoteValidationError) (row col : Nat) (v : List Char),
      (∀ c ∈ v, c.utf8Size = 1) →
      displayError (.QuoteValidationError st row col v) =
        some ("At row " ++ toString row ++ ". " ++ subtypeMessage st ++
          " in column: " ++ toString col ++ ", value: " ++
          String.mk (v.take 64))) ∧
    (∀ row expected found : Nat,
      displayError (.RowFieldCountMismatchError row expected found) =
        some ("At row " ++ toString row ++
          ". Field count mismatch. Expected: " ++ toString expected ++
          ", Found: " ++ toString found)) ∧
    subtypeMessage .InvalidQuoteError = "Unbalanced quote error" ∧
    subtypeMessage .InvalidEscapeError =
      "Unquoted field with escaped quote error" ∧
    subtypeMessage .UnterminatedQuoteError =
      "Unterminated outer quote error" := by
  refine ⟨?_, fun _ _ _ => rfl, rfl, rfl, rfl⟩
  intro st row col v hall
  have htake : v.take (min 64 v.length) = v.take 64 := by
    rcases le_total v.length 64 with h | h
    · rw [min_eq_right h, List.take_length, List.take_of_length_le h]
    · rw [min_eq_left h]
  simp only [displayError, utf8Len_eq_length hall]
  rw [byteTake_of_ones v _ hall (min_le_right _ _), htake]

/-- Claim C8, witness: the amended quote-error rendering evaluated on a
concrete error with the single-byte value abc. -/
theorem claim_C8_witness :
    displayError (.QuoteValidationError .InvalidEscapeError 2 3
        ("abc".toList)) =
      some ("At row " ++ toString 2 ++ ". " ++
        subtypeMessage .InvalidEscapeError ++ " in column: " ++ toString 3 ++
        ", value: " ++ String.mk (("abc".toList).take 64)) :=
  claim_C8_display.1 .InvalidEscapeError 2 3 _ (by decide)

/-! Claims C1, C2, C5. -/

/-- Claim C1: when the scanner completes a row whose field count differs
from the immediately preceding row's count, `parse_values` returns
RowShapeError with expected = the preceding count, found = the current
count and row = accepted data rows + 1; the check is independent of the
header flag (the header row is subject to the same rolling check), the
first processed row is never checked (its predecessor count is 0), and on
the literal scenario "Name,Type,Value\nvalue1,string" with header=true the
result is RowShapeError row 1 expected 3 found 2. -/
theorem claim_C1_row_shape :
    (∀ (header : Bool) (c : Char) (s : ScanState),
      c = '\n' → 0 < s.v.length → 0 < s.prev_num_fields →
      s.num_fields ≠ s.prev_num_fields →
      processRow header c s =
        .error (.RowFieldCountMismatchError (s.row_count + 1)
          s.prev_num_fields s.num_fields)) ∧
    (∀ (header : Bool) (s : ScanState) (r e fd : Nat),
      s.prev_num_fields = 0 →
      processRow header '\n' s ≠
        .error (.RowFieldCountMismatchError r e fd)) ∧
    parse_values ("Name,Type,Value\nvalue1,string".toList) ',' true =
      some (.error (.RowFieldCountMismatchError 1 3 2)) := by
  refine ⟨?_, ?_, by decide⟩
  · intro header c s hc hv hp hne
    unfold processRow
    rw [if_pos ⟨hc, hv⟩, if_pos ⟨hp, hne⟩]
  · intro header s r e fd h0
    unfold processRow
    by_cases hv : 0 < s.v.length
    · rw [if_pos ⟨rfl, hv⟩, if_neg (by rintro ⟨hp, _⟩; omega)]
      by_cases hh : (header = true ∧ s.csv.has_headers = false)
      · rw [if_pos hh]
        cases s.csv.set_header s.v <;> simp
      · rw [if_neg hh]
        cases s.csv.set_data s.v s.num_fields <;> simp
    · rw [if_neg (by rintro ⟨_, hv2⟩; exact hv hv2)]
      simp

/-- Claim C1, witness: the rolling row-shape check evaluated at a concrete
loop state with two fields against a previous count of three. -/
theorem claim_C1_witness :
    processRow true '\n'
        ⟨TableData.new, ["a".toList, "b".toList], false, [], 2, 3, 0, 'b'⟩ =
      .error (.RowFieldCountMismatchError 1 3 2) :=
  claim_C1_row_shape.1 true '\n'
    ⟨TableData.new, ["a".toList, "b".toList], false, [], 2, 3, 0, 'b'⟩
    rfl (by decide) (by decide) (by decide)

/-- Claim C2, counterexample: in a state inside an outer-quoted field, a
newline character (with delimiter `,`) is not appended to the in-progress
field buffer, so the claim that every character is appended while
inside_quote is true is false. -/
theorem claim_C2_counterexample :
    scanStep ',' false
        ⟨TableData.new, [], true, ['b'], 0, 0, 0, 'b'⟩ '\n' =
      .next ⟨TableData.new, [], true, ['b'], 0, 0, 0, '\n'⟩ ∧
    (['b'] : List Char) ≠ ['b'] ++ ['\n'] := by
  decide

/-- Claim C2 (amended): while inside_quote is true, a character other than
`"` terminates neither the field nor the row and leaves the quote state
on; it is appended to the in-progress field buffer unless it is a newline
that is not the delimiter (the delimiter itself is appended; a non-delimiter
newline inside quotes is dropped from the field text, not preserved). -/
theorem claim_C2_quoted_append :
    ∀ (delim : Char) (header : Bool) (s : ScanState) (c : Char),
      s.inside_quote = true → c ≠ '\"' → ¬ (c = s.prev_char ∧ c = '\n') →
      scanStep delim header s c =
        .next { s with
          current_field :=
            if c ≠ '\n' ∨ c = delim then s.current_field ++ [c]
            else s.current_field,
          prev_char := c } := by
  intro delim header s c hq hc hd
  have hinside : (pushAndToggle delim s c).inside_quote = true := by
    simp only [pushAndToggle]
    rw [if_neg hc]
    exact hq
  unfold scanStep
  rw [if_neg hd, if_pos hinside]
  obtain ⟨csv, v, iq, cf, nf, pnf, rc, pc⟩ := s
  have hq2 : iq = true := hq
  subst hq2
  simp only [pushAndToggle]
  rw [if_neg hc]
  by_cases h1 : c = delim
  · rw [if_pos (Or.inr ⟨by trivial, h1⟩), if_pos (Or.inr h1)]
  · by_cases h2 : c = '\n'
    · rw [if_neg (by
          rintro (⟨hn, _⟩ | ⟨_, hdl⟩)
          exacts [hn h2, h1 hdl]),
        if_neg (by
          rintro (hn | hdl)
          exacts [hn h2, h1 hdl])]
    · rw [if_pos (Or.inl ⟨h2, h1⟩), if_pos (Or.inl h2)]

/-- Claim C2, witness: the amended in-quote behaviour evaluated at a
concrete state for the ordinary character x (appended) with delimiter
`,`. -/
theorem claim_C2_witness :
    scanStep ',' false
        ⟨TableData.new, [], true, ['b'], 0, 0, 0, 'b'⟩ 'x' =
      .next ⟨TableData.new, [], true,
        (if ('x' : Char) ≠ '\n' ∨ ('x' : Char) = ',' then ['b'] ++ ['x']
         else ['b']), 0, 0, 0, 'x'⟩ :=
  claim_C2_quoted_append ',' false
    ⟨TableData.new, [], true, ['b'], 0, 0, 0, 'b'⟩ 'x'
    rfl (by decide) (by decide)

/-- Claim C5: if the quote state is still on after the whole text (plus the
synthetic trailing newline) has been scanned, `parse_values` returns
QuoteError UnterminatedQuote with row = accepted data rows + 1, column =
fields already pushed + 1 and value = the partial raw field; on the
literal scenario "Name,Type,Value\n\"value1,string,abc" with header=true
the result is that error at row 1, column 1 with the raw tail as value. -/
theorem claim_C5_unterminated_quote :
    (∀ (buffer : List Char) (delim : Char) (header : Bool) (s : ScanState),
      runScan delim header initState
          ((buffer.filter (fun c => c ≠ '\r')) ++ ['\n']) = .next s →
      s.inside_quote = true →
      parse_values buffer delim header =
        some (.error (.QuoteValidationError .UnterminatedQuoteError
          (s.row_count + 1) (s.v.length + 1) s.current_field))) ∧
    parse_values ("Name,Type,Value\n\"value1,string,abc".toList) ',' true =
      some (.error (.QuoteValidationError .UnterminatedQuoteError 1 1
        ("\"value1,string,abc".toList))) := by
  refine ⟨?_, by decide⟩
  intro buffer delim header s hr hq
  unfold parse_values
  rw [hr]
  simp only [hq, if_true]

/-- Claim C5, witness: the end-of-input rule applied to the concrete
two-character buffer consisting of a quote and the letter a. -/
theorem claim_C5_witness :
    parse_values ("\"a".toList) ',' false =
      some (.error (.QuoteValidationError .UnterminatedQuoteError 1 1
        ['\"', 'a'])) :=
  claim_C5_unterminated_quote.1 ("\"a".toList) ',' false
    ⟨TableData.new, [], true, ['\"', 'a'], 0, 0, 0, '\n'⟩
    (by decide) rfl

/-! The scanner invariant, used for claims C7 and C9: the rolling field
counts, the accumulated table's dimensions and the quote parity of the
in-progress field are mutually consistent at every loop iteration. -/

/-- The loop invariant of `parse_values`: the row buffer length tracks the
field counter; the table's flat data has exactly `columns * rows` entries;
a non-empty header has `columns` entries; a zero column count means a still
empty table; once columns are established the rolling previous count equals
them; with a requested but not yet captured header the table is empty; and
(when the delimiter is not the quote character itself) the number of quote
characters in the in-progress field is even exactly when the scanner is
outside quotes. -/
def ScanInv (header : Bool) (delim : Char) (s : ScanState) : Prop :=
  s.v.length = s.num_fields ∧
  s.csv.data.length = s.csv.columns * s.csv.rows ∧
  (s.csv.header ≠ [] → s.csv.header.length = s.csv.columns) ∧
  (s.csv.columns = 0 → s.csv.data = [] ∧ s.csv.rows = 0) ∧
  (0 < s.csv.columns → s.prev_num_fields = s.csv.columns) ∧
  (header = true → s.csv.header = [] → s.csv.columns = 0) ∧
  (delim ≠ '\"' → (s.current_field.count '\"') % 2 =
    (if s.inside_quote then 1 else 0))

/-- A field with an even number of quote characters is never the single
quote character, so `finalize_field` cannot hit its panic branch on it. -/
theorem finalize_isSome_of_even (f : List Char)
    (h : f.count '\"' % 2 = 0) : finalize_field f ≠ none := by
  unfold finalize_field
  by_cases ho : has_outer_quotes f = true
  · rw [if_pos ho]
    by_cases h2 : 2 ≤ f.length
    · rw [if_pos h2]; simp
    · exfalso
      match f, ho with
      | [], ho => simp [has_outer_quotes] at ho
      | [c], ho =>
        simp only [has_outer_quotes, List.head?_cons, List.getLast?_singleton,
          decide_eq_true_eq] at ho
        have hc := Option.some.inj ho.1
        subst hc
        simp [List.count_cons] at h
      | c1 :: c2 :: rest, ho => exact h2 (by simp)
  · rw [if_neg ho]; simp

/-- The row block never panics under the invariant, and preserves it. -/
theorem processRow_inv (header : Bool) (delim : Char) (c : Char)
    (s : ScanState) (h : ScanInv header delim s) :
    processRow header c s ≠ .panic ∧
    (∀ s', processRow header c s = .next s' → ScanInv header delim s') := by
  obtain ⟨h1, h2, h3, h4, h5, h6, h7⟩ := h
  unfold processRow
  by_cases hrow : (c = '\n' ∧ 0 < s.v.length)
  · rw [if_pos hrow]
    obtain ⟨hceq, hvpos⟩ := hrow
    by_cases hmis : (0 < s.prev_num_fields ∧ s.num_fields ≠ s.prev_num_fields)
    · rw [if_pos hmis]
      exact ⟨by simp, fun s' hs' => by simp at hs'⟩
    · rw [if_neg hmis]
      have hnum : 0 < s.num_fields := by omega
      by_cases hh : (header = true ∧ s.csv.has_headers = false)
      · rw [if_pos hh]
        have hhdr : s.csv.header = [] := by
          have hf := hh.2
          simp only [TableData.has_headers, decide_eq_false_iff_not,
            Nat.not_lt, Nat.le_zero] at hf
          exact List.length_eq_zero.mp hf
        have hcol0 : s.csv.columns = 0 := h6 hh.1 hhdr
        have hset : s.csv.set_header s.v = some
            { s.csv with header := s.v,
                         dims := (s.v.length, s.csv.rows) } := by
          unfold TableData.set_header
          rw [if_pos (Or.inr hcol0)]
        rw [hset]
        obtain ⟨hdata0, hrows0⟩ := h4 hcol0
        refine ⟨by simp, fun s' hs' => ?_⟩
        injection hs' with he
        subst he
        refine ⟨by simp, ?_, ?_, ?_, ?_, ?_, ?_⟩
        · have hr2 : s.csv.dims.2 = 0 := hrows0
          simp [TableData.columns, TableData.rows, hdata0, hr2]
        · intro _
          simp [TableData.columns]
        · intro hc0
          simp only [TableData.columns] at hc0
          omega
        · intro _
          simp only [TableData.columns]
          omega
        · intro _ hemp
          have hemp2 : s.v = [] := hemp
          simp [TableData.columns, hemp2]
        · intro hdq
          exact h7 hdq
      · rw [if_neg hh]
        by_cases hcol : s.csv.columns = 0
        · obtain ⟨hdata0, hrows0⟩ := h4 hcol
          have hset : s.csv.set_data s.v s.num_fields = some
              { s.csv with data := s.csv.data ++ s.v,
                           dims := (s.num_fields,
                             (s.csv.data ++ s.v).length / s.num_fields) } := by
            unfold TableData.set_data
            rw [if_pos (Or.inr hcol), if_neg (by omega)]
          rw [hset]
          have hlen : (s.csv.data ++ s.v).length = s.num_fields := by
            rw [hdata0]
            simpa using h1
          refine ⟨by simp, fun s' hs' => ?_⟩
          injection hs' with he
          subst he
          refine ⟨by simp, ?_, ?_, ?_, ?_, ?_, ?_⟩
          · simp only [TableData.columns, TableData.rows]
            rw [hlen, Nat.div_self hnum, Nat.mul_one]
          · intro hne
            have h3' := h3 hne
            rw [hcol] at h3'
            exact absurd (List.length_eq_zero.mp h3') hne
          · intro hc0
            simp only [TableData.columns] at hc0
            omega
          · intro _
            rfl
          · intro hT hemp
            exfalso
            apply hh
            refine ⟨hT, ?_⟩
            have hemp2 : s.csv.header = [] := hemp
            simp [TableData.has_headers, hemp2]
          · intro hdq
            exact h7 hdq
        · have hcolpos : 0 < s.csv.columns := Nat.pos_of_ne_zero hcol
          have hprev := h5 hcolpos
          have hnumeq : s.num_fields = s.csv.columns := by
            by_contra hne
            exact hmis ⟨by omega, by omega⟩
          have hset : s.csv.set_data s.v s.num_fields = some
              { s.csv with data := s.csv.data ++ s.v,
                           dims := (s.num_fields,
                             (s.csv.data ++ s.v).length / s.num_fields) } := by
            unfold TableData.set_data
            rw [if_pos (Or.inl ⟨hcolpos, hnumeq⟩), if_neg (by omega)]
          rw [hset]
          have hlen : (s.csv.data ++ s.v).length =
              s.num_fields * (s.csv.rows + 1) := by
            calc (s.csv.data ++ s.v).length
                = s.csv.data.length + s.v.length := List.length_append _ _
              _ = s.csv.columns * s.csv.rows + s.num_fields := by rw [h2, h1]
              _ = s.num_fields * (s.csv.rows + 1) := by rw [hnumeq]; ring
          have hdiv : (s.csv.data ++ s.v).length / s.num_fields =
              s.csv.rows + 1 := by
            rw [hlen, Nat.mul_div_cancel_left _ hnum]
          refine ⟨by simp, fun s' hs' => ?_⟩
          injection hs' with he
          subst he
          refine ⟨by simp, ?_, ?_, ?_, ?_, ?_, ?_⟩
          · simp only [TableData.columns, TableData.rows]
            rw [hdiv, hlen]
          · intro hne
            have h3' := h3 hne
            simp only [TableData.columns]
            omega
          · intro hc0
            simp only [TableData.columns] at hc0
            omega
          · intro _
            rfl
          · intro hT hemp
            exfalso
            apply hh
            refine ⟨hT, ?_⟩
            have hemp2 : s.csv.header = [] := hemp
            simp [TableData.has_headers, hemp2]
          · intro hdq
            exact h7 hdq
  · rw [if_neg hrow]
    exact ⟨by simp, fun s' hs' => by
      injection hs' with he
      subst he
      exact ⟨h1, h2, h3, h4, h5, h6, h7⟩⟩

/-- The field block: with the quote toggle off it never panics unless the
delimiter is the quote character, and it preserves the invariant. -/
theorem processField_inv (header : Bool) (delim : Char) (c : Char)
    (s : ScanState) (h : ScanInv header delim s)
    (hqoff : s.inside_quote = false) :
    (delim ≠ '\"' → processField delim c s ≠ .panic) ∧
    (∀ s', processField delim c s = .next s' → ScanInv header delim s') := by
  obtain ⟨h1, h2, h3, h4, h5, h6, h7⟩ := h
  unfold processField
  by_cases hcond : ((c = '\n' ∧ 0 < s.current_field.length) ∨ c = delim)
  · rw [if_pos hcond]
    cases hval : validate_field s.current_field with
    | error e =>
      exact ⟨fun _ => by simp, fun s' hs' => by simp at hs'⟩
    | ok b =>
      cases hfin : finalize_field s.current_field with
      | none =>
        refine ⟨fun hdq => ?_, fun s' hs' => by simp at hs'⟩
        exfalso
        apply finalize_isSome_of_even s.current_field ?_ hfin
        have h7' := h7 hdq
        rw [hqoff] at h7'
        simpa using h7'
      | some f =>
        refine ⟨fun _ => by simp, fun s' hs' => ?_⟩
        injection hs' with he
        subst he
        refine ⟨?_, h2, h3, h4, h5, h6, ?_⟩
        · simp only [List.length_append, List.length_cons, List.length_nil]
          omega
        · intro _
          rw [hqoff]
          simp
  · rw [if_neg hcond]
    exact ⟨fun _ => by simp, fun s' hs' => by
      injection hs' with he
      subst he
      exact ⟨h1, h2, h3, h4, h5, h6, h7⟩⟩

/-- One scanner iteration: never a panic when the delimiter is not the
quote character, and the invariant is preserved into every next state. -/
theorem scanStep_inv (delim : Char) (header : Bool) (s : ScanState)
    (c : Char) (h : ScanInv header delim s) :
    (delim ≠ '\"' → scanStep delim header s c ≠ .panic) ∧
    (∀ s', scanStep delim header s c = .next s' → ScanInv header delim s') := by
  unfold scanStep
  by_cases hd : (c = s.prev_char ∧ c = '\n')
  · rw [if_pos hd]
    exact ⟨fun _ => by simp, fun s' hs' => by
      injection hs' with he
      subst he
      exact h⟩
  · rw [if_neg hd]
    have hpt : ScanInv header delim (pushAndToggle delim s c) := by
      obtain ⟨h1, h2, h3, h4, h5, h6, h7⟩ := h
      refine ⟨h1, h2, h3, h4, h5, h6, ?_⟩
      intro hdq
      have h7d := h7 hdq
      simp only [pushAndToggle]
      by_cases hcq : c = '\"'
      · subst hcq
        have hne : ¬ (('\"' : Char) = delim) := fun he => hdq he.symm
        have hcond : ((¬ ('\"' : Char) = '\n' ∧ ¬ ('\"' : Char) = delim) ∨
            (s.inside_quote = true ∧ ('\"' : Char) = delim)) :=
          Or.inl ⟨by decide, hne⟩
        simp only [if_pos hcond, List.count_append]
        have hcnt : List.count '\"' ['\"'] = 1 := by decide
        rw [hcnt]
        rcases hiq : s.inside_quote with _ | _ <;>
          rw [hiq] at h7d <;>
          simp at h7d ⊢ <;>
          omega
      · simp only [if_neg hcq]
        by_cases hpush :
            ((¬ c = '\n' ∧ ¬ c = delim) ∨ (s.inside_quote = true ∧ c = delim))
        · simp only [if_pos hpush, List.count_append]
          have hcnt : List.count '\"' [c] = 0 := by
            simp [List.count_cons, hcq]
          rw [hcnt, Nat.add_zero]
          exact h7d
        · simp only [if_neg hpush]
          exact h7d
    by_cases hq1 : (pushAndToggle delim s c).inside_quote = true
    · rw [if_pos hq1]
      exact ⟨fun _ => by simp, fun s' hs' => by
        injection hs' with he
        subst he
        exact hpt⟩
    · rw [if_neg hq1]
      have hqoff : (pushAndToggle delim s c).inside_quote = false := by
        simpa using hq1
      obtain ⟨hfp, hfn⟩ :=
        processField_inv header delim c (pushAndToggle delim s c) hpt hqoff
      cases hpf : processField delim c (pushAndToggle delim s c) with
      | panic =>
        exact ⟨fun hdq => absurd hpf (hfp hdq), fun s' hs' => by simp at hs'⟩
      | error e =>
        exact ⟨fun _ => by simp, fun s' hs' => by simp at hs'⟩
      | next s2 =>
        have hinv2 := hfn s2 hpf
        obtain ⟨hrp, hrn⟩ := processRow_inv header delim c s2 hinv2
        constructor
        · intro _
          show StepResult.setPrev c (processRow header c s2) ≠
            StepResult.panic
          cases hpr : processRow header c s2 with
          | panic => exact absurd hpr hrp
          | error e => simp [StepResult.setPrev]
          | next s3 => simp [StepResult.setPrev]
        · intro s' hs'
          replace hs' : StepResult.setPrev c (processRow header c s2) =
            StepResult.next s' := hs'
          cases hpr : processRow header c s2 with
          | panic => exact absurd hpr hrp
          | error e =>
            rw [hpr] at hs'
            simp [StepResult.setPrev] at hs'
          | next s3 =>
            rw [hpr] at hs'
            simp only [StepResult.setPrev] at hs'
            injection hs' with he
            subst he
            exact hrn s3 hpr

/-- Running the whole scan from an invariant state: no panic (when the
delimiter is not the quote character), and the final state satisfies the
invariant. -/
theorem runScan_inv (delim : Char) (header : Bool) :
    ∀ (l : List Char) (s : ScanState), ScanInv header delim s →
      (delim ≠ '\"' → runScan delim header s l ≠ .panic) ∧
      (∀ s', runScan delim header s l = .next s' →
        ScanInv header delim s') := by
  intro l
  induction l with
  | nil =>
    intro s h
    refine ⟨fun _ => by simp [runScan], fun s' hs' => ?_⟩
    simp only [runScan] at hs'
    injection hs' with he
    subst he
    exact h
  | cons c cs ih =>
    intro s h
    obtain ⟨hsp, hsn⟩ := scanStep_inv delim header s c h
    simp only [runScan]
    cases hstep : scanStep delim header s c with
    | panic =>
      exact ⟨fun hdq => absurd hstep (hsp hdq), fun s' hs' => by simp at hs'⟩
    | error e =>
      exact ⟨fun _ => by simp, fun s' hs' => by simp at hs'⟩
    | next s1 => exact ih s1 (hsn s1 hstep)

/-- The initial scanner state satisfies the invariant. -/
theorem scanInv_init (header : Bool) (delim : Char) :
    ScanInv header delim initState := by
  refine ⟨rfl, rfl, fun hne => absurd rfl hne, fun _ => ⟨rfl, rfl⟩,
    fun hlt => absurd hlt (by decide), fun _ _ => rfl, fun _ => by decide⟩

/-- Claim C7: every table returned by a successful parse satisfies
data.length = column_count * row_count, and header.length = column_count
whenever the header is non-empty. -/
theorem claim_C7_table_invariants :
    ∀ (buffer : List Char) (delim : Char) (header : Bool) (t : TableData),
      parse_values buffer delim header = some (.ok t) →
      t.data.length = t.columns * t.rows ∧
      (t.header ≠ [] → t.header.length = t.columns) := by
  intro buffer delim header t hp
  unfold parse_values at hp
  cases hr : runScan delim header initState
      ((buffer.filter (fun c => c ≠ '\r')) ++ ['\n']) with
  | panic => rw [hr] at hp; simp at hp
  | error e => rw [hr] at hp; simp at hp
  | next s =>
    rw [hr] at hp
    replace hp : (if s.inside_quote = true then
        some (Except.error (TableDataValidationError.QuoteValidationError
          QuoteValidationError.UnterminatedQuoteError (s.row_count + 1)
          (s.v.length + 1) s.current_field))
      else some (Except.ok s.csv)) = some (Except.ok t) := hp
    by_cases hq : s.inside_quote = true
    · rw [if_pos hq] at hp
      simp at hp
    · rw [if_neg hq] at hp
      simp only [Option.some.injEq] at hp
      injection hp with he
      obtain ⟨_, h2, h3, _, _, _, _⟩ :=
        (runScan_inv delim header _ initState
          (scanInv_init header delim)).2 s hr
      exact ⟨he ▸ h2, he ▸ h3⟩

/-- Claim C7, witness: the invariants evaluated on the table produced by
parsing the concrete input a,b without a header. -/
theorem claim_C7_witness :
    (⟨[], ["a".toList, "b".toList], (2, 1)⟩ : TableData).data.length =
        (⟨[], ["a".toList, "b".toList], (2, 1)⟩ : TableData).columns *
        (⟨[], ["a".toList, "b".toList], (2, 1)⟩ : TableData).rows ∧
      ((⟨[], ["a".toList, "b".toList], (2, 1)⟩ : TableData).header ≠ [] →
        (⟨[], ["a".toList, "b".toList], (2, 1)⟩ : TableData).header.length =
        (⟨[], ["a".toList, "b".toList], (2, 1)⟩ : TableData).columns) :=
  claim_C7_table_invariants ("a,b".toList) ',' false
    ⟨[], ["a".toList, "b".toList], (2, 1)⟩ (by decide)

/-- Claim C9, counterexample: with the delimiter equal to the quote
character, parsing the two-character text consisting of two quotes reaches
`finalize_field` on the single-quote field and panics (the model's `none`),
so `parse_values` is not total over every delimiter. -/
theorem claim_C9_counterexample :
    parse_values ("\"\"".toList) '\"' false = none := by
  decide

/-- Claim C9 (amended): for every input text and header flag, and every
delimiter other than the quote character, `parse_values` terminates with
Ok or Err and never reaches a panic: the panic branches of `set_header`
and `set_data` and the panicking byte slice of `finalize_field` (modelled
as `none`) are unreachable. -/
theorem claim_C9_no_panic :
    ∀ (buffer : List Char) (delim : Char) (header : Bool),
      delim ≠ '\"' → (parse_values buffer delim header).isSome = true := by
  intro buffer delim header hdq
  unfold parse_values
  cases hr : runScan delim header initState
      ((buffer.filter (fun c => c ≠ '\r')) ++ ['\n']) with
  | panic =>
    exact absurd hr
      ((runScan_inv delim header _ initState (scanInv_init header delim)).1 hdq)
  | error e => simp
  | next s =>
    show (if s.inside_quote = true then
        some (Except.error (TableDataValidationError.QuoteValidationError
          QuoteValidationError.UnterminatedQuoteError (s.row_count + 1)
          (s.v.length + 1) s.current_field))
      else some (Except.ok s.csv)).isSome = true
    split <;> rfl

/-- Claim C9, witness: totality evaluated on the concrete input a,b with
the comma delimiter. -/
theorem claim_C9_witness :
    (parse_values ("a,b".toList) ',' false).isSome = true :=
  claim_C9_no_panic ("a,b".toList) ',' false (by decide)

/-! Claim C10: the older streaming validator against the newest
index-collecting validator. -/

/-- The older validator's loop restricted to the interior quote positions:
each position either becomes the pending quote, closes the pending quote
(adjacent: a legal escape only with outer quotes), or reports a
non-adjacent pending quote. -/
def oldQLoop (L : Nat) (O : Bool) :
    Nat → List Nat → Except QuoteValidationError Nat
  | found, [] => .ok found
  | found, i :: rest =>
    if found < L ∧ found ≠ i - 1 then .error .InvalidQuoteError
    else if found = L then oldQLoop L O i rest
    else if O = false then .error .InvalidEscapeError
    else oldQLoop L O L rest

/-- The older validator's final check: a still-pending quote (sentinel not
restored) is an unbalanced quote. -/
def oldFinish (L : Nat) :
    Except QuoteValidationError Nat → Except QuoteValidationError Bool
  | .error e => .error e
  | .ok found => if found ≠ L then .error .InvalidQuoteError else .ok true

/-- The character loop of the older validator only changes state at
interior quote positions, so it equals `oldQLoop` on the filtered
position list. -/
theorem oldValidateLoop_filter (L : Nat) (O : Bool) :
    ∀ (es : List (Nat × Char)) (found : Nat),
      oldValidateLoop L O found es =
      oldQLoop L O found ((es.filter
        (fun p => decide (0 < p.1 ∧ p.1 < L - 1 ∧ p.2 = '\"'))).map
          Prod.fst) := by
  intro es
  induction es with
  | nil => intro found; rfl
  | cons p rest ih =>
    intro found
    by_cases hp : (0 < p.1 ∧ p.1 < L - 1 ∧ p.2 = '\"')
    · have hfilter : (p :: rest).filter
          (fun p => decide (0 < p.1 ∧ p.1 < L - 1 ∧ p.2 = '\"')) =
          p :: rest.filter
            (fun p => decide (0 < p.1 ∧ p.1 < L - 1 ∧ p.2 = '\"')) := by
        simp [List.filter_cons, hp]
      rw [hfilter, List.map_cons]
      simp only [oldValidateLoop, oldQLoop, if_pos hp]
      by_cases h1 : (found < L ∧ found ≠ p.1 - 1)
      · simp only [if_pos h1]
      · simp only [if_neg h1]
        by_cases h2 : found = L
        · simp only [if_pos h2]
          exact ih p.1
        · simp only [if_neg h2]
          by_cases h3 : O = false
          · simp only [if_pos h3]
          · simp only [if_neg h3]
            exact ih L
    · have hfilter : (p :: rest).filter
          (fun p => decide (0 < p.1 ∧ p.1 < L - 1 ∧ p.2 = '\"')) =
          rest.filter
            (fun p => decide (0 < p.1 ∧ p.1 < L - 1 ∧ p.2 = '\"')) := by
        simp [List.filter_cons, hp]
      rw [hfilter]
      simp only [oldValidateLoop, if_neg hp]
      exact ih found

/-- The two engines build the same interior-quote position list. -/
theorem old_indices_eq (f : List Char) :
    ((f.enum.filter
      (fun p => decide (0 < p.1 ∧ p.1 < utf8Len f - 1 ∧ p.2 = '\"'))).map
        Prod.fst) = interiorQuoteIndices f := by
  unfold interiorQuoteIndices
  congr 1
  apply List.filter_congr
  intro p _
  rw [decide_eq_decide]
  tauto

/-- The older validator, rewritten through the position list. -/
theorem validate_field_old_eq (f : List Char) :
    validate_field_old f =
      oldFinish (utf8Len f) (oldQLoop (utf8Len f) (has_outer_quotes f)
        (utf8Len f) (interiorQuoteIndices f)) := by
  simp only [validate_field_old]
  rw [oldValidateLoop_filter, old_indices_eq]
  cases hq : oldQLoop (utf8Len f) (has_outer_quotes f) (utf8Len f)
      (interiorQuoteIndices f) with
  | error e => simp [oldFinish]
  | ok found => simp [oldFinish]

/-- Members of an enumeration from `n` have index at least `n`. -/
theorem le_fst_of_mem_enumFrom :
    ∀ (l : List Char) (n : Nat) (q : Nat × Char),
      q ∈ l.enumFrom n → n ≤ q.1 := by
  intro l
  induction l with
  | nil => intro n q hq; simp [List.enumFrom] at hq
  | cons c cs ih =>
    intro n q hq
    simp only [List.enumFrom, List.mem_cons] at hq
    rcases hq with rfl | hq
    · exact Nat.le_refl n
    · have := ih (n + 1) q hq
      omega

/-- Enumeration indices are strictly increasing. -/
theorem pairwise_fst_enumFrom :
    ∀ (n : Nat) (l : List Char),
      (l.enumFrom n).Pairwise (fun a b : Nat × Char => a.1 < b.1) := by
  intro n l
  induction l generalizing n with
  | nil => exact List.Pairwise.nil
  | cons c cs ih =>
    simp only [List.enumFrom]
    refine List.Pairwise.cons ?_ (ih (n + 1))
    intro q hq
    have := le_fst_of_mem_enumFrom cs (n + 1) q hq
    omega

/-- The interior-quote positions are strictly increasing. -/
theorem pairwise_interiorQuoteIndices (f : List Char) :
    (interiorQuoteIndices f).Pairwise (· < ·) := by
  unfold interiorQuoteIndices
  refine List.pairwise_map.mpr ?_
  exact (pairwise_fst_enumFrom 0 f).filter _

/-- Every interior-quote position is below the byte length minus one. -/
theorem mem_interiorQuoteIndices_lt (f : List Char) (i : Nat)
    (hi : i ∈ interiorQuoteIndices f) : i < utf8Len f - 1 := by
  unfold interiorQuoteIndices at hi
  rcases List.mem_map.mp hi with ⟨p, hp, rfl⟩
  have hpp := List.of_mem_filter hp
  simp only [decide_eq_true_eq] at hpp
  exact hpp.2.2

/-- One-step unfolding of `oldQLoop` on a cons cell. -/
theorem oldQLoop_cons (L : Nat) (O : Bool) (found i : Nat)
    (rest : List Nat) :
    oldQLoop L O found (i :: rest) =
      if found < L ∧ found ≠ i - 1 then .error .InvalidQuoteError
      else if found = L then oldQLoop L O i rest
      else if O = false then .error .InvalidEscapeError
      else oldQLoop L O L rest := rfl

/-- One-step unfolding of `checkQuotePairs` on a pair. -/
theorem checkQuotePairs_cons2 (O : Bool) (a b : Nat) (rest : List Nat) :
    checkQuotePairs O (a :: b :: rest) =
      if b - a > 1 then .error .InvalidQuoteError
      else if ¬ O then .error .InvalidEscapeError
      else checkQuotePairs O rest := rfl

/-- `oldFinish` on a surviving loop state. -/
theorem oldFinish_ok (L found : Nat) :
    oldFinish L (.ok found) =
      if found ≠ L then .error .InvalidQuoteError else .ok true := rfl

/-- On an even, increasing, bounded position list the older streaming loop
and the newer pairing loop give the same verdict. -/
theorem oldQ_even_eq :
    ∀ (n : Nat) (L : Nat) (O : Bool) (qs : List Nat),
      qs.length = n → qs.length % 2 = 0 →
      (∀ i ∈ qs, i < L - 1) → qs.Pairwise (· < ·) →
      oldFinish L (oldQLoop L O L qs) = checkQuotePairs O qs := by
  intro n
  induction n using Nat.strong_induction_on with
  | _ n ih =>
    intro L O qs hlen heven hmem hpair
    rcases qs with _ | ⟨a, _ | ⟨b, rest⟩⟩
    · simp [oldQLoop, oldFinish, checkQuotePairs]
    · simp at heven
    · have hab : a < b :=
        List.rel_of_pairwise_cons hpair (List.mem_cons_self b rest)
      have haL : a < L - 1 := hmem a (by simp)
      have hbL : b < L - 1 := hmem b (by simp)
      have hL2 : 2 ≤ L := by omega
      rw [oldQLoop_cons, if_neg (by rintro ⟨h1, _⟩; omega), if_pos rfl,
        oldQLoop_cons, checkQuotePairs_cons2]
      by_cases hgt : b - a > 1
      · rw [if_pos ⟨by omega, by omega⟩, if_pos hgt]
        rfl
      · rw [if_neg (by rintro ⟨_, hne⟩; omega), if_neg (by omega),
          if_neg hgt]
        by_cases hO : O = false
        · rw [if_pos hO, if_pos (by simp [hO])]
          rfl
        · have hOt : O = true := by
            cases O
            · exact absurd rfl hO
            · rfl
          rw [if_neg hO, if_neg (by simp [hOt])]
          have hlen2 : rest.length + 2 = n := by
            simp only [List.length_cons] at hlen
            omega
          refine ih rest.length (by omega) L O rest rfl ?_ ?_ ?_
          · simp only [List.length_cons] at heven
            omega
          · intro i hi
            exact hmem i (by simp [hi])
          · exact hpair.of_cons.of_cons

/-- On an odd, increasing, bounded position list the older streaming loop
(with its final pending-quote check) never accepts. -/
theorem oldQ_odd_not_ok :
    ∀ (n : Nat) (L : Nat) (O : Bool) (qs : List Nat),
      qs.length = n → qs.length % 2 = 1 →
      (∀ i ∈ qs, i < L - 1) → qs.Pairwise (· < ·) →
      ∀ x : Bool, oldFinish L (oldQLoop L O L qs) ≠ .ok x := by
  intro n
  induction n using Nat.strong_induction_on with
  | _ n ih =>
    intro L O qs hlen hodd hmem hpair
    rcases qs with _ | ⟨a, _ | ⟨b, rest⟩⟩
    · simp at hodd
    · have haL : a < L - 1 := hmem a (by simp)
      have hL2 : 2 ≤ L := by omega
      intro x
      rw [oldQLoop_cons, if_neg (by rintro ⟨h1, _⟩; omega), if_pos rfl]
      rw [show oldQLoop L O a [] = Except.ok a from rfl]
      rw [oldFinish_ok, if_pos (by omega)]
      simp
    · have hab : a < b :=
        List.rel_of_pairwise_cons hpair (List.mem_cons_self b rest)
      have haL : a < L - 1 := hmem a (by simp)
      have hbL : b < L - 1 := hmem b (by simp)
      have hL2 : 2 ≤ L := by omega
      intro x
      rw [oldQLoop_cons, if_neg (by rintro ⟨h1, _⟩; omega), if_pos rfl,
        oldQLoop_cons]
      by_cases hgt : b - a > 1
      · rw [if_pos ⟨by omega, by omega⟩]
        simp [oldFinish]
      · rw [if_neg (by rintro ⟨_, hne⟩; omega), if_neg (by omega)]
        by_cases hO : O = false
        · rw [if_pos hO]
          simp [oldFinish]
        · rw [if_neg hO]
          have hlen2 : rest.length + 2 = n := by
            simp only [List.length_cons] at hlen
            omega
          refine ih rest.length (by omega) L O rest rfl ?_ ?_ ?_ x
          · simp only [List.length_cons] at hodd
            omega
          · intro i hi
            exact hmem i (by simp [hi])
          · exact hpair.of_cons.of_cons

/-- Claim C10, counterexample: on the field a""b"c (odd interior-quote
count, no outer quotes, first two interior quotes adjacent) the newest
validator reports InvalidQuote while the older streaming validator reports
InvalidEscape, so the claimed subtype agreement is false. -/
theorem claim_C10_counterexample :
    validate_field ("a\"\"b\"c".toList) = .error .InvalidQuoteError ∧
      validate_field_old ("a\"\"b\"c".toList) =
        .error .InvalidEscapeError := by
  decide

/-- Claim C10 (amended): the two validators accept exactly the same
fields; and whenever the interior-quote count is even they return
identical results, hence the same error subtype on rejection.  (They can
differ only on an odd count, where both reject: the newest engine always
says InvalidQuote while the older one may report InvalidEscape first.) -/
theorem claim_C10_validators :
    (∀ f : List Char,
      (∃ x, validate_field_old f = .ok x) ↔
        (∃ x, validate_field f = .ok x)) ∧
    (∀ f : List Char, (interiorQuoteIndices f).length % 2 = 0 →
      validate_field_old f = validate_field f) := by
  have hkey : ∀ f : List Char, (interiorQuoteIndices f).length % 2 = 0 →
      validate_field_old f = validate_field f := by
    intro f heven
    rw [validate_field_old_eq]
    rw [oldQ_even_eq (interiorQuoteIndices f).length (utf8Len f)
      (has_outer_quotes f) (interiorQuoteIndices f) rfl heven
      (fun i hi => mem_interiorQuoteIndices_lt f i hi)
      (pairwise_interiorQuoteIndices f)]
    simp only [validate_field]
    rw [if_neg (by omega)]
  refine ⟨?_, hkey⟩
  intro f
  by_cases heven : (interiorQuoteIndices f).length % 2 = 0
  · rw [hkey f heven]
  · have hodd : (interiorQuoteIndices f).length % 2 = 1 := by omega
    constructor
    · rintro ⟨x, hx⟩
      exfalso
      rw [validate_field_old_eq] at hx
      exact oldQ_odd_not_ok (interiorQuoteIndices f).length (utf8Len f)
        (has_outer_quotes f) (interiorQuoteIndices f) rfl hodd
        (fun i hi => mem_interiorQuoteIndices_lt f i hi)
        (pairwise_interiorQuoteIndices f) x hx
    · rintro ⟨x, hx⟩
      exfalso
      simp only [validate_field] at hx
      rw [if_pos (by omega)] at hx
      simp at hx

/-- Claim C10, witness: identical verdicts evaluated on the concrete
even-count field "a""b". -/
theorem claim_C10_witness :
    validate_field_old ("\"a\"\"b\"".toList) =
      validate_field ("\"a\"\"b\"".toList) :=
  claim_C10_validators.2 _ (by decide)
